import Mathlib

/-!
Shallow embedding of the stock aggregation service (`src/stock/index.js`):
the average-price helper, the cache-aside fetch layer, the nearest-timestamp
series aligner and the Pearson correlation engine, together with the
validation phase of the `/stockcorrelation` route.

Prices are modelled as real numbers (the JS code uses float64), timestamps as
integers (milliseconds since epoch, the value of `Date.getTime()`).  The wall
clock (`new Date()` in the JS source) is passed as an explicit parameter
`now`.
-/

namespace Stock

/-- A single upstream price point: `{ price, lastUpdatedAt }`. -/
structure PricePoint where
  price : ℝ
  lastUpdatedAt : ℤ

/-- The source's `calculateAveragePrice`: `0` for a missing/empty history,
otherwise the sum of the `price` fields divided by the length. -/
noncomputable def calculateAveragePrice (priceHistory : List PricePoint) : ℝ :=
  if priceHistory.length = 0 then 0
  else (priceHistory.map PricePoint.price).sum / priceHistory.length

/-! ### The aligner (`alignPriceHistories`) -/

/-- One step of the inner `for (let entry2 of filtered2)` loop: the state is
`none` for `closest = null, minDiff = Infinity`, and `some (c, m)` for
`closest = c, minDiff = m`; the state is replaced exactly when
`diff < minDiff` (any finite `diff` beats `Infinity`). -/
def closestStep (time1 : ℤ) (st : Option (PricePoint × ℤ)) (entry2 : PricePoint) :
    Option (PricePoint × ℤ) :=
  match st with
  | none => some (entry2, |time1 - entry2.lastUpdatedAt|)
  | some (c, m) =>
    if |time1 - entry2.lastUpdatedAt| < m
    then some (entry2, |time1 - entry2.lastUpdatedAt|)
    else some (c, m)

/-- The inner loop of `alignPriceHistories`: scan `filtered2` keeping the
closest entry so far and its absolute time difference. -/
def scanClosest (time1 : ℤ) (filtered2 : List PricePoint) : Option (PricePoint × ℤ) :=
  filtered2.foldl (closestStep time1) none

/-- The outer `for (let entry1 of filtered1)` loop: for each entry of
`filtered1`, find the closest entry of `filtered2`; when one exists push
`entry1.price` onto the first output and `closest.price` onto the second,
otherwise push nothing. -/
def alignPairs (filtered1 filtered2 : List PricePoint) : List ℝ × List ℝ :=
  match filtered1 with
  | [] => ([], [])
  | entry1 :: rest =>
    let closest := scanClosest entry1.lastUpdatedAt filtered2
    let tail := alignPairs rest filtered2
    match closest with
    | some cm => (entry1.price :: tail.1, cm.1.price :: tail.2)
    | none => tail

/-- The source's `alignPriceHistories`: `endTime = now`,
`startTime = endTime - minutes * 60 * 1000`, filter both histories to the
inclusive window, then run the nearest-timestamp pairing loop. -/
def alignPriceHistories (history1 history2 : List PricePoint) (minutes now : ℤ) :
    List ℝ × List ℝ :=
  let endTime := now
  let startTime := now - minutes * 60 * 1000
  let filterByTime := fun (history : List PricePoint) =>
    history.filter (fun entry =>
      decide (startTime ≤ entry.lastUpdatedAt ∧ entry.lastUpdatedAt ≤ endTime))
  alignPairs (filterByTime history1) (filterByTime history2)

/-! ### The correlation engine (`calculateCorrelation`) -/

open Classical in
/-- The source's `calculateCorrelation`.  `n` is the length of the FIRST
series (as in the JS code); sums run over indices `0 ≤ i < n`; the covariance
and both variance sums use Bessel's correction (`n - 1`); a zero sample
standard deviation on either side short-circuits to `0`. -/
noncomputable def calculateCorrelation (prices1 prices2 : List ℝ) : ℝ :=
  if prices1.length < 2 ∨ prices2.length < 2 then 0
  else
    let n : ℕ := prices1.length
    let mean1 : ℝ := prices1.sum / n
    let mean2 : ℝ := prices2.sum / n
    let cov : ℝ :=
      (∑ i in Finset.range n,
        (prices1.getD i 0 - mean1) * (prices2.getD i 0 - mean2)) / ((n : ℝ) - 1)
    let stdDev1 : ℝ := Real.sqrt
      ((∑ i in Finset.range n,
        (prices1.getD i 0 - mean1) * (prices1.getD i 0 - mean1)) / ((n : ℝ) - 1))
    let stdDev2 : ℝ := Real.sqrt
      ((∑ i in Finset.range n,
        (prices2.getD i 0 - mean2) * (prices2.getD i 0 - mean2)) / ((n : ℝ) - 1))
    if stdDev1 = 0 ∨ stdDev2 = 0 then 0 else cov / (stdDev1 * stdDev2)

/-- The correlation path of the route: align the two histories, then
correlate the two aligned price series. -/
noncomputable def alignAndCorrelate (h1 h2 : List PricePoint) (minutes now : ℤ) :
    (List ℝ × List ℝ) × ℝ :=
  let p := alignPriceHistories h1 h2 minutes now
  (p, calculateCorrelation p.1 p.2)

/-! ### The cache-aside fetch layer (`fetchStockPriceHistory`)

The cache itself is the external `node-cache` library (`new NodeCache({
stdTTL: 300, checkperiod: 60 })`), not code of this repository. -/

/-- The cache contents: composite key, stored history, insertion time
(seconds). New entries are consed in front, so a later `set` shadows an
earlier one. -/
abbrev CacheMap := List (String × List PricePoint × ℤ)

/-- Modelled from the spec: the `get` of `PriceHistoryCache` (the `node-cache`
dependency, absent from the sources).  Per the spec, only the observable
contract matters: after `ttl` (300) seconds from `set`, a subsequent `get`
acts as a miss; within the TTL it returns the stored value. -/
def cacheGet (c : CacheMap) (key : String) (now : ℤ) : Option (List PricePoint) :=
  match List.lookup key c with
  | some (v, t0) => if now - t0 < 300 then some v else none
  | none => none

/-- Modelled from the spec: the `set` of `PriceHistoryCache`: store the value
with the standard TTL, measured from the insertion instant `now`. -/
def cacheSet (c : CacheMap) (key : String) (v : List PricePoint) (now : ℤ) : CacheMap :=
  (key, v, now) :: c

/-- Cache state plus a counter of upstream HTTP requests issued so far. -/
structure FetchState where
  cache : CacheMap
  upstreamCalls : ℕ

/-- The source's `fetchStockPriceHistory`: build the composite key
`` `${ticker}:${minutes}` ``, return the cached value on a hit; on a miss
issue one upstream request (the `upstream` oracle stands for the normalized
axios response), cache the data and return it. -/
def fetchStockPriceHistory (upstream : String → ℤ → List PricePoint)
    (st : FetchState) (ticker : String) (minutes now : ℤ) :
    List PricePoint × FetchState :=
  let cacheKey := ticker ++ ":" ++ toString minutes
  match cacheGet st.cache cacheKey now with
  | some cachedData => (cachedData, st)
  | none =>
    let data := upstream ticker minutes
    (data, ⟨cacheSet st.cache cacheKey data now, st.upstreamCalls + 1⟩)

/-! ### Validation phase of `GET /stockcorrelation` -/

/-- The query-parameter validation of the `/stockcorrelation` handler.
`minutes` is `none` when the parameter is missing or not a number (`!minutes
|| isNaN(minutes)`), and `tickers` is the list of `ticker` query values
(Express yields an array only when several are supplied, so a missing or
single ticker is also rejected by the length test).  On success the handler
destructures `[ticker1, ticker2]`. -/
def correlationValidate (minutes : Option ℤ) (tickers : List String) :
    Except Nat (String × String) :=
  match minutes with
  | none => Except.error 400
  | some m =>
    if m ≤ 0 then Except.error 400
    else
      match tickers with
      | [t1, t2] => Except.ok (t1, t2)
      | _ => Except.error 400

/-- The tickers the handler fetches upstream: both tickers exactly when
validation passed, none when it answered 400 (the fetches sit after the
early returns). -/
def correlationUpstreamTickers (minutes : Option ℤ) (tickers : List String) :
    List String :=
  match correlationValidate minutes tickers with
  | Except.error _ => []
  | Except.ok (t1, t2) => [t1, t2]

/-! ### Spec-side aligner, for the refinement claim about `alignPriceHistories` -/

/-- Spec-side nearest point: "scan the entire filtered B-series and select
the point with minimum absolute timestamp difference (ties broken by
first-encountered)"; `none` when the B-series is empty. -/
def specNearest (t : ℤ) : List PricePoint → Option PricePoint
  | [] => none
  | b :: l =>
    match specNearest t l with
    | none => some b
    | some c =>
      if |t - b.lastUpdatedAt| ≤ |t - c.lastUpdatedAt| then some b else some c

/-- Spec-side aligner, following the spec's words: filter each history to
`startTime ≤ timestamp ≤ endTime` (inclusive both ends, `endTime = now`);
for every surviving A point take the nearest B point, appending nothing when
none exists; output the price values of the matched pairs in A's order. -/
def specAlign (h1 h2 : List PricePoint) (minutes now : ℤ) : List ℝ × List ℝ :=
  let startTime := now - minutes * 60 * 1000
  let windowFilter := fun (h : List PricePoint) =>
    h.filter (fun e => decide (startTime ≤ e.lastUpdatedAt ∧ e.lastUpdatedAt ≤ now))
  let f1 := windowFilter h1
  let f2 := windowFilter h2
  (f1.filterMap (fun e => (specNearest e.lastUpdatedAt f2).map (fun _ => e.price)),
   f1.filterMap (fun e => (specNearest e.lastUpdatedAt f2).map PricePoint.price))

/-- Proof helper: the entry of `c :: l` nearest to `t`, computed left to
right keeping the current best and replacing it only on strict improvement,
exactly as the scanning loop does. -/
def leftNearest (t : ℤ) (c : PricePoint) : List PricePoint → PricePoint
  | [] => c
  | b :: l =>
    if |t - b.lastUpdatedAt| < |t - c.lastUpdatedAt|
    then leftNearest t b l
    else leftNearest t c l

/-! ### Helper lemmas -/

/-- The left-to-right nearest entry is at least as close as the seed. -/
lemma leftNearest_le (t : ℤ) (c : PricePoint) (l : List PricePoint) :
    |t - (leftNearest t c l).lastUpdatedAt| ≤ |t - c.lastUpdatedAt| := by
  induction l generalizing c with
  | nil => simp [leftNearest]
  | cons b l ih =>
    simp only [leftNearest]
    by_cases hb : |t - b.lastUpdatedAt| < |t - c.lastUpdatedAt|
    · rw [if_pos hb]
      exact le_trans (ih b) hb.le
    · rw [if_neg hb]
      exact ih c

/-- Replacing the seed by a worse one does not change the scan's outcome,
except that the better seed may win ties against it. -/
lemma leftNearest_shift (t : ℤ) (l : List PricePoint) :
    ∀ c b : PricePoint, |t - c.lastUpdatedAt| ≤ |t - b.lastUpdatedAt| →
    leftNearest t c l =
      if |t - c.lastUpdatedAt| ≤ |t - (leftNearest t b l).lastUpdatedAt| then c
      else leftNearest t b l := by
  induction l with
  | nil =>
    intro c b hcb
    simp [leftNearest, hcb]
  | cons x l ih =>
    intro c b hcb
    simp only [leftNearest]
    by_cases hxc : |t - x.lastUpdatedAt| < |t - c.lastUpdatedAt|
    · rw [if_pos hxc, if_pos (lt_of_lt_of_le hxc hcb),
        if_neg (not_le.mpr (lt_of_le_of_lt (leftNearest_le t x l) hxc))]
    · rw [if_neg hxc]
      by_cases hxb : |t - x.lastUpdatedAt| < |t - b.lastUpdatedAt|
      · rw [if_pos hxb]
        exact ih c x (not_lt.mp hxc)
      · rw [if_neg hxb]
        exact ih c b hcb

/-- The spec-side nearest point of a non-empty list is the left-to-right
scan's winner. -/
lemma specNearest_cons (t : ℤ) (l : List PricePoint) :
    ∀ c : PricePoint, specNearest t (c :: l) = some (leftNearest t c l) := by
  induction l with
  | nil => intro c; rfl
  | cons b l ih =>
    intro c
    have step : specNearest t (c :: b :: l) =
        match specNearest t (b :: l) with
        | none => some c
        | some d =>
          if |t - c.lastUpdatedAt| ≤ |t - d.lastUpdatedAt| then some c
          else some d := rfl
    rw [step, ih b]
    show (if |t - c.lastUpdatedAt| ≤ |t - (leftNearest t b l).lastUpdatedAt|
          then some c else some (leftNearest t b l)) =
        some (leftNearest t c (b :: l))
    simp only [leftNearest]
    by_cases hbc : |t - b.lastUpdatedAt| < |t - c.lastUpdatedAt|
    · rw [if_pos hbc,
        if_neg (not_le.mpr (lt_of_le_of_lt (leftNearest_le t b l) hbc))]
    · rw [if_neg hbc, leftNearest_shift t l c b (not_lt.mp hbc)]
      by_cases hcl : |t - c.lastUpdatedAt| ≤ |t - (leftNearest t b l).lastUpdatedAt|
      · rw [if_pos hcl, if_pos hcl]
      · rw [if_neg hcl, if_neg hcl]

/-- Folding the loop step from a seeded state tracks `leftNearest`, the
stored difference staying that of the stored entry. -/
lemma foldl_closestStep_some (t : ℤ) (l : List PricePoint) :
    ∀ c : PricePoint,
    List.foldl (closestStep t) (some (c, |t - c.lastUpdatedAt|)) l =
      some (leftNearest t c l, |t - (leftNearest t c l).lastUpdatedAt|) := by
  induction l with
  | nil => intro c; rfl
  | cons b l ih =>
    intro c
    simp only [List.foldl, closestStep, leftNearest]
    by_cases hb : |t - b.lastUpdatedAt| < |t - c.lastUpdatedAt|
    · rw [if_pos hb, if_pos hb]
      exact ih b
    · rw [if_neg hb, if_neg hb]
      exact ih c

/-- The source's scanning loop computes exactly the spec-side nearest point
(together with its absolute time difference). -/
lemma scanClosest_eq_specNearest (t : ℤ) (l : List PricePoint) :
    scanClosest t l =
      (specNearest t l).map (fun c => (c, |t - c.lastUpdatedAt|)) := by
  cases l with
  | nil => rfl
  | cons b l =>
    simp only [scanClosest, List.foldl, closestStep, specNearest_cons t l b,
      Option.map_some]
    exact foldl_closestStep_some t l b

/-- The pairing loop is the pair of `filterMap`s over the filtered A-series
described by the spec. -/
lemma alignPairs_eq_filterMap (f1 f2 : List PricePoint) :
    alignPairs f1 f2 =
      (f1.filterMap (fun e => (specNearest e.lastUpdatedAt f2).map (fun _ => e.price)),
       f1.filterMap (fun e => (specNearest e.lastUpdatedAt f2).map PricePoint.price)) := by
  induction f1 with
  | nil => rfl
  | cons e rest ih =>
    simp only [alignPairs, scanClosest_eq_specNearest, List.filterMap_cons]
    cases hn : specNearest e.lastUpdatedAt f2 with
    | none => simpa using ih
    | some c => simp [ih]

/-- The pairing loop pushes onto both outputs or onto neither, so the two
aligned lists always have the same length. -/
lemma alignPairs_length_eq (f1 f2 : List PricePoint) :
    (alignPairs f1 f2).1.length = (alignPairs f1 f2).2.length := by
  induction f1 with
  | nil => rfl
  | cons e rest ih =>
    simp only [alignPairs]
    cases scanClosest e.lastUpdatedAt f2 <;> simp [ih]

/-- Sum of a constant list. -/
lemma const_list_sum (l : List ℝ) (c : ℝ) (hc : ∀ x ∈ l, x = c) :
    l.sum = l.length * c := by
  induction l with
  | nil => simp
  | cons a t ih =>
    have ha : a = c := hc a (List.mem_cons_self a t)
    have ht : ∀ x ∈ t, x = c := fun x hx => hc x (List.mem_cons_of_mem a hx)
    simp only [List.sum_cons, List.length_cons, ih ht, ha]
    push_cast
    ring

/-- The sum of squared deviations of a constant list from its mean (computed
with divisor `n`, the length) vanishes. -/
lemma const_sumsq_zero (l : List ℝ) (n : ℕ) (hn : l.length = n) (hn0 : 0 < n)
    (c : ℝ) (hc : ∀ x ∈ l, x = c) :
    ∑ i in Finset.range n,
      (l.getD i 0 - l.sum / n) * (l.getD i 0 - l.sum / n) = 0 := by
  have hcast : (n : ℝ) ≠ 0 := Nat.cast_ne_zero.mpr hn0.ne'
  have hmean : l.sum / (n : ℝ) = c := by
    rw [const_list_sum l c hc, hn]
    field_simp
  refine Finset.sum_eq_zero ?_
  intro i hi
  have hil : i < l.length := by
    rw [hn]
    exact Finset.mem_range.mp hi
  have hgd : l.getD i 0 = c := by
    rw [List.getD_eq_getElem l 0 hil]
    exact hc _ (List.getElem_mem hil)
  rw [hgd, hmean, sub_self, mul_zero]

end Stock

namespace Stock

/-! ### Claim theorems -/

/-- C2: `alignPriceHistories` coincides with the spec-side aligner: filter
each history to `startTime ≤ timestamp ≤ endTime` inclusive (`endTime =
now`), pair every filtered A point with the filtered B point of minimum
absolute timestamp difference (ties to the earliest in B's order), and
produce nothing for any A point when the filtered B-series is empty. -/
theorem alignPriceHistories_eq_specAlign (h1 h2 : List PricePoint)
    (minutes now : ℤ) :
    alignPriceHistories h1 h2 minutes now = specAlign h1 h2 minutes now := by
  simp only [alignPriceHistories, specAlign]
  exact alignPairs_eq_filterMap _ _

/-- C5: for every pair of input histories and every window, the two sequences
returned by `alignPriceHistories` have equal length (possibly zero), so the
correlation route always hands `calculateCorrelation` equal-length series. -/
theorem alignPriceHistories_length_eq (h1 h2 : List PricePoint) (minutes now : ℤ) :
    (alignPriceHistories h1 h2 minutes now).1.length =
      (alignPriceHistories h1 h2 minutes now).2.length := by
  simp only [alignPriceHistories]
  exact alignPairs_length_eq _ _

/-- C6: if either series has fewer than 2 points, `calculateCorrelation`
returns `0` rather than failing. -/
theorem calculateCorrelation_short_eq_zero (p1 p2 : List ℝ)
    (h : p1.length < 2 ∨ p2.length < 2) : calculateCorrelation p1 p2 = 0 := by
  unfold calculateCorrelation
  rw [if_pos h]

/-- Witness for C6 at the concrete input `[]`, `[1,2,3]`. -/
theorem calculateCorrelation_short_eq_zero_witness :
    (([] : List ℝ).length < 2 ∨ ([1, 2, 3] : List ℝ).length < 2) ∧
      calculateCorrelation [] [1, 2, 3] = 0 :=
  ⟨by decide, calculateCorrelation_short_eq_zero [] [1, 2, 3] (by decide)⟩

/-- C9: `calculateAveragePrice` returns `0` on an empty history and the
arithmetic mean (sum of the price values divided by the length) on a
non-empty one. -/
theorem calculateAveragePrice_spec (h : List PricePoint) :
    (h = [] → calculateAveragePrice h = 0) ∧
    (h ≠ [] → calculateAveragePrice h = (h.map PricePoint.price).sum / h.length) := by
  constructor
  · rintro rfl
    rfl
  · intro hne
    unfold calculateAveragePrice
    rw [if_neg (by simpa using hne)]

/-- Witness for C9: the spec's own examples, `[]` ↦ 0 and prices 10, 20 ↦ 15. -/
theorem calculateAveragePrice_spec_witness :
    calculateAveragePrice [⟨10, 0⟩, ⟨20, 0⟩] = 15 ∧ calculateAveragePrice [] = 0 := by
  constructor
  · have h := (calculateAveragePrice_spec [⟨10, 0⟩, ⟨20, 0⟩]).2 (by simp)
    rw [h]
    norm_num
  · exact (calculateAveragePrice_spec []).1 rfl

/-- C4: the align-then-correlate pipeline is deterministic: two invocations
with equal inputs (histories, window, and the clock reading, which the
embedding passes explicitly) produce equal aligned series and equal
correlation coefficients. -/
theorem alignAndCorrelate_deterministic (h1 h2 h1' h2' : List PricePoint)
    (m now m' now' : ℤ) (e1 : h1 = h1') (e2 : h2 = h2') (em : m = m')
    (en : now = now') :
    alignAndCorrelate h1 h2 m now = alignAndCorrelate h1' h2' m' now' := by
  subst e1; subst e2; subst em; subst en
  rfl

/-- Witness for C4 at a concrete repeated invocation. -/
theorem alignAndCorrelate_deterministic_witness :
    alignAndCorrelate [⟨1, 0⟩] [⟨2, 5⟩] 1 0 = alignAndCorrelate [⟨1, 0⟩] [⟨2, 5⟩] 1 0 :=
  alignAndCorrelate_deterministic [⟨1, 0⟩] [⟨2, 5⟩] [⟨1, 0⟩] [⟨2, 5⟩] 1 0 1 0
    rfl rfl rfl rfl

/-- C1 counterexample: a request with a duplicated ticker (`["AAPL","AAPL"]`,
NOT two distinct symbols) and valid minutes is not rejected: validation
succeeds and both upstream fetches are issued, refuting the claim that every
such request gets a 400 with no upstream call. -/
theorem correlation_duplicate_tickers_accepted :
    ¬ (["AAPL", "AAPL"] : List String).Nodup ∧
    correlationValidate (some 5) ["AAPL", "AAPL"] = Except.ok ("AAPL", "AAPL") ∧
    correlationUpstreamTickers (some 5) ["AAPL", "AAPL"] = ["AAPL", "AAPL"] :=
  ⟨by decide, rfl, rfl⟩

/-- C1 (amended): unless exactly two ticker values are supplied — distinct or
not — the `/stockcorrelation` handler answers 400 and issues no upstream
call. -/
theorem correlationValidate_not_two_tickers (m : Option ℤ) (ts : List String)
    (h : ts.length ≠ 2) :
    correlationValidate m ts = Except.error 400 ∧
      correlationUpstreamTickers m ts = [] := by
  have hv : correlationValidate m ts = Except.error 400 := by
    rcases m with _ | v
    · rfl
    · simp only [correlationValidate]
      split
      · rfl
      · rcases ts with _ | ⟨a, _ | ⟨b, _ | ⟨c, l⟩⟩⟩
        · rfl
        · rfl
        · exact absurd rfl h
        · rfl
  exact ⟨hv, by simp [correlationUpstreamTickers, hv]⟩

/-- Witness for the amended C1 at a single-ticker request. -/
theorem correlationValidate_not_two_tickers_witness :
    (["AAPL"] : List String).length ≠ 2 ∧
    correlationValidate (some 5) ["AAPL"] = Except.error 400 ∧
    correlationUpstreamTickers (some 5) ["AAPL"] = [] :=
  ⟨by decide,
   (correlationValidate_not_two_tickers (some 5) ["AAPL"] (by decide)).1,
   (correlationValidate_not_two_tickers (some 5) ["AAPL"] (by decide)).2⟩

/-- C3: starting from a state where the key is absent, a second fetch within
300 seconds of the first serves from cache (one upstream call in total, same
value returned); a fetch 300 or more seconds after the insertion misses and
issues a second upstream call. -/
theorem fetch_cache_ttl (upstream : String → ℤ → List PricePoint)
    (st : FetchState) (ticker : String) (minutes t1 t2 : ℤ)
    (hmiss : cacheGet st.cache (ticker ++ ":" ++ toString minutes) t1 = none) :
    (t2 - t1 < 300 →
      (fetchStockPriceHistory upstream
          (fetchStockPriceHistory upstream st ticker minutes t1).2
          ticker minutes t2).2.upstreamCalls = st.upstreamCalls + 1 ∧
      (fetchStockPriceHistory upstream
          (fetchStockPriceHistory upstream st ticker minutes t1).2
          ticker minutes t2).1 =
        (fetchStockPriceHistory upstream st ticker minutes t1).1) ∧
    (300 ≤ t2 - t1 →
      (fetchStockPriceHistory upstream
          (fetchStockPriceHistory upstream st ticker minutes t1).2
          ticker minutes t2).2.upstreamCalls = st.upstreamCalls + 2) := by
  have h1 : fetchStockPriceHistory upstream st ticker minutes t1 =
      (upstream ticker minutes,
        ⟨cacheSet st.cache (ticker ++ ":" ++ toString minutes)
          (upstream ticker minutes) t1, st.upstreamCalls + 1⟩) := by
    simp only [fetchStockPriceHistory, hmiss]
  have hget : ∀ tq : ℤ, cacheGet
      (cacheSet st.cache (ticker ++ ":" ++ toString minutes)
        (upstream ticker minutes) t1)
      (ticker ++ ":" ++ toString minutes) tq =
      if tq - t1 < 300 then some (upstream ticker minutes) else none := by
    intro tq
    simp [cacheGet, cacheSet, List.lookup]
  constructor
  · intro hlt
    rw [h1]
    simp only [fetchStockPriceHistory, hget, if_pos hlt]
    exact ⟨trivial, trivial⟩
  · intro hge
    rw [h1]
    simp only [fetchStockPriceHistory, hget, if_neg (not_lt.mpr hge)]

/-- C7: on equal-length series of at least two points, a constant series on
either side makes its sample standard deviation exactly zero, and
`calculateCorrelation` then returns `0` instead of dividing by zero. -/
theorem calculateCorrelation_constant_eq_zero (p1 p2 : List ℝ)
    (hlen : p1.length = p2.length) (h2 : 2 ≤ p1.length)
    (hc : (∀ x ∈ p1, ∀ y ∈ p1, x = y) ∨ (∀ x ∈ p2, ∀ y ∈ p2, x = y)) :
    calculateCorrelation p1 p2 = 0 := by
  unfold calculateCorrelation
  rw [if_neg (by push_neg; omega)]
  dsimp only
  rcases hc with hc1 | hc2
  · obtain ⟨x, hx⟩ := List.exists_mem_of_ne_nil p1
      (List.length_pos.mp (by omega))
    have hzero : ∑ i in Finset.range p1.length,
        (p1.getD i 0 - p1.sum / ↑p1.length) *
          (p1.getD i 0 - p1.sum / ↑p1.length) = 0 :=
      const_sumsq_zero p1 p1.length rfl (by omega) x
        (fun y hy => hc1 y hy x hx)
    simp only [hzero, zero_div, Real.sqrt_zero]
    rw [if_pos (Or.inl trivial)]
  · obtain ⟨x, hx⟩ := List.exists_mem_of_ne_nil p2
      (List.length_pos.mp (by omega))
    have hzero : ∑ i in Finset.range p1.length,
        (p2.getD i 0 - p2.sum / ↑p1.length) *
          (p2.getD i 0 - p2.sum / ↑p1.length) = 0 :=
      const_sumsq_zero p2 p1.length hlen.symm (by omega) x
        (fun y hy => hc2 y hy x hx)
    simp only [hzero, zero_div, Real.sqrt_zero]
    rw [if_pos (Or.inr trivial)]

/-- Witness for C7: the spec's example, constant `[5,5,5]` against
`[1,2,3]`. -/
theorem calculateCorrelation_constant_eq_zero_witness :
    ([5, 5, 5] : List ℝ).length = ([1, 2, 3] : List ℝ).length ∧
    2 ≤ ([5, 5, 5] : List ℝ).length ∧
    calculateCorrelation [5, 5, 5] [1, 2, 3] = 0 :=
  ⟨by decide, by decide,
   calculateCorrelation_constant_eq_zero [5, 5, 5] [1, 2, 3] (by decide) (by decide)
     (Or.inl (by intro x hx y hy; simp only [List.mem_cons, List.not_mem_nil,
        or_false] at hx hy; rcases hx with rfl | rfl | rfl <;>
        rcases hy with rfl | rfl | rfl <;> rfl))⟩

/-- C8: `calculateCorrelation` applied to a non-constant series of at least
two points and itself returns exactly `1` (exact real arithmetic). -/
theorem calculateCorrelation_self (p : List ℝ) (h2 : 2 ≤ p.length)
    (hnc : ¬ ∀ x ∈ p, ∀ y ∈ p, x = y) :
    calculateCorrelation p p = 1 := by
  unfold calculateCorrelation
  rw [if_neg (by push_neg; omega)]
  dsimp only
  set S := ∑ i in Finset.range p.length,
    (p.getD i 0 - p.sum / ↑p.length) * (p.getD i 0 - p.sum / ↑p.length) with hS
  have hS0 : 0 ≤ S := Finset.sum_nonneg (fun i _ => mul_self_nonneg _)
  have hSne : S ≠ 0 := by
    intro h0
    apply hnc
    have hall := (Finset.sum_eq_zero_iff_of_nonneg
      (fun i _ => mul_self_nonneg _)).mp (hS ▸ h0)
    have hmem : ∀ z ∈ p, z = p.sum / ↑p.length := by
      intro z hz
      obtain ⟨i, hi, hzi⟩ := List.mem_iff_getElem.mp hz
      have := hall i (Finset.mem_range.mpr hi)
      rw [List.getD_eq_getElem p 0 hi, hzi] at this
      exact sub_eq_zero.mp (mul_self_eq_zero.mp this)
    intro x hx y hy
    rw [hmem x hx, hmem y hy]
  have hn1 : (0 : ℝ) < (p.length : ℝ) - 1 := by
    have : (2 : ℝ) ≤ (p.length : ℝ) := by exact_mod_cast h2
    linarith
  have hq : 0 < S / ((p.length : ℝ) - 1) := div_pos (lt_of_le_of_ne hS0 (Ne.symm hSne)) hn1
  have hsq : Real.sqrt (S / ((p.length : ℝ) - 1)) ≠ 0 := (Real.sqrt_pos.mpr hq).ne'
  rw [if_neg (by push_neg; exact ⟨hsq, hsq⟩)]
  rw [Real.mul_self_sqrt hq.le, div_self hq.ne']

/-- Witness for C8 at the non-constant series `[1,2,3]`. -/
theorem calculateCorrelation_self_witness :
    2 ≤ ([1, 2, 3] : List ℝ).length ∧
    calculateCorrelation [1, 2, 3] [1, 2, 3] = 1 :=
  ⟨by decide,
   calculateCorrelation_self [1, 2, 3] (by decide)
     (by intro h
         have h12 := h 1 (by simp) 2 (by simp)
         norm_num at h12)⟩

/-- C10: on equal-length series `calculateCorrelation` is symmetric in its
two arguments. -/
theorem calculateCorrelation_symm (a b : List ℝ) (h : a.length = b.length) :
    calculateCorrelation a b = calculateCorrelation b a := by
  unfold calculateCorrelation
  dsimp only
  simp only [h]
  by_cases hg : b.length < 2 ∨ b.length < 2
  · rw [if_pos hg, if_pos hg]
  · rw [if_neg hg, if_neg hg]
    have hcov : (∑ i in Finset.range b.length,
        (a.getD i 0 - a.sum / ↑b.length) * (b.getD i 0 - b.sum / ↑b.length)) =
        ∑ i in Finset.range b.length,
          (b.getD i 0 - b.sum / ↑b.length) * (a.getD i 0 - a.sum / ↑b.length) :=
      Finset.sum_congr rfl (fun i _ => mul_comm _ _)
    refine if_congr or_comm rfl ?_
    rw [hcov, mul_comm (Real.sqrt _) (Real.sqrt _)]

/-- Witness for C10 at the equal-length pair `[1,2]`, `[3,5]`. -/
theorem calculateCorrelation_symm_witness :
    ([1, 2] : List ℝ).length = ([3, 5] : List ℝ).length ∧
    calculateCorrelation [1, 2] [3, 5] = calculateCorrelation [3, 5] [1, 2] :=
  ⟨by decide, calculateCorrelation_symm [1, 2] [3, 5] (by decide)⟩

/-- Witness for C3: a concrete run with hit at `t = 100` and miss at
`t = 400`. -/
theorem fetch_cache_ttl_witness :
    ((fetchStockPriceHistory (fun _ _ => [])
        ((fetchStockPriceHistory (fun _ _ => []) ⟨[], 0⟩ "AAPL" 5 0).2)
        "AAPL" 5 100).2.upstreamCalls = 0 + 1) ∧
    ((fetchStockPriceHistory (fun _ _ => [])
        ((fetchStockPriceHistory (fun _ _ => []) ⟨[], 0⟩ "AAPL" 5 0).2)
        "AAPL" 5 400).2.upstreamCalls = 0 + 2) :=
  ⟨((fetch_cache_ttl (fun _ _ => []) ⟨[], 0⟩ "AAPL" 5 0 100 rfl).1 (by decide)).1,
   (fetch_cache_ttl (fun _ _ => []) ⟨[], 0⟩ "AAPL" 5 0 400 rfl).2 (by decide)⟩

end Stock
